import Mathlib

/-!
Verification of the matchmaking / session / anti-abuse core of `src/server.js`
(an anonymous 1:1 chat bot).

The JavaScript state is shallowly embedded:

* the two in-memory `Map`s `activeChats` and `waitingQueue` are association
  lists `List (Nat × _)` with JS `Map` semantics (`mget` / `mset` / `mdel`;
  `set` on a present key updates the value in place, keeping the original
  insertion position, otherwise appends; iteration is list order);
* the MongoDB user collection is a total function `Nat → UserRec`
  (every id that appears in a run is assumed registered);
* the `Report` collection is a list of report rows;
* timestamps are `Nat` milliseconds; message texts are `List Char`.

Each Lean definition mirrors one function or handler of `src/server.js` and
is named after it where possible (`findPartner`, `startChat`, `endChat`,
`checkAndAutoBan`, `checkPremiumStatus`, `maskBadWords`, ...).  The
telegram transport (sending messages), the persistence layer, and the
registration flow are not modelled: they do not touch the queue / session
state.  The regex-based link detector is modelled as a stateless scan for
the same alternatives (the JS global-regex `lastIndex` carry-over of
`linkRegex.test` is not modelled; no claim depends on which texts count as
links).
-/

/-- Gender of a registered user (`userSchema.gender`, enum male/female). -/
inductive Gender where
  | male
  | female
deriving DecidableEq, Repr

/-- The per-user persistent record: the subset of `userSchema` fields read or
written by the matchmaking, relay and anti-abuse code. -/
structure UserRec where
  gender : Gender
  isActive : Bool
  isPremium : Bool
  premiumExpire : Option Nat
  safeMode : Bool
  badWordCount : Nat
  linkSpamCount : Nat
  repeatSpamCount : Nat
  reportCount : Nat
  floodMessages : List Nat
  lastMessages : List (List Char)
deriving DecidableEq, Repr

/-- A `waitingQueue` value: `{ gender: preferredGender || 'any', timestamp, isPremium }`.
`pref = none` models the `'any'` value. -/
structure QEntry where
  pref : Option Gender
  timestamp : Nat
  isPremium : Bool
deriving DecidableEq, Repr

/-- One row of the `Report` collection (`reportSchema`). -/
structure ReportRec where
  reported : Nat
  reporter : Nat
  date : Nat
deriving DecidableEq, Repr

/-- The whole mutable state of the server process. -/
structure BotState where
  users : Nat → UserRec
  activeChats : List (Nat × Nat)
  waitingQueue : List (Nat × QEntry)
  reports : List ReportRec

/-- JS `Map.get`: value of the first (unique) entry with the given key. -/
def mget {β : Type} (m : List (Nat × β)) (k : Nat) : Option β :=
  match m with
  | [] => none
  | (a, b) :: t => if a = k then some b else mget t k

/-- JS `Map.has`. -/
def mhas {β : Type} (m : List (Nat × β)) (k : Nat) : Bool :=
  (mget m k).isSome

/-- JS `Map.set`: update in place (keeping the entry's position) if the key is
present, otherwise append at the back. -/
def mset {β : Type} (m : List (Nat × β)) (k : Nat) (v : β) : List (Nat × β) :=
  match m with
  | [] => [(k, v)]
  | (a, b) :: t => if a = k then (k, v) :: t else (a, b) :: mset t k v

/-- JS `Map.delete`. -/
def mdel {β : Type} (m : List (Nat × β)) (k : Nat) : List (Nat × β) :=
  match m with
  | [] => []
  | (a, b) :: t => if a = k then mdel t k else (a, b) :: mdel t k

/-- The key sequence of a map, in iteration order. -/
def keys {β : Type} (m : List (Nat × β)) : List Nat :=
  m.map Prod.fst

@[simp] theorem keys_nil {β : Type} : keys ([] : List (Nat × β)) = [] := rfl

@[simp] theorem keys_cons {β : Type} (a : Nat) (b : β) (t : List (Nat × β)) :
    keys ((a, b) :: t) = a :: keys t := rfl

theorem mget_eq_none_iff {β : Type} (m : List (Nat × β)) (k : Nat) :
    mget m k = none ↔ k ∉ keys m := by
  induction m with
  | nil => simp [mget, keys]
  | cons hd t ih =>
    obtain ⟨a, b⟩ := hd
    by_cases h : a = k <;> simp [mget, keys, h, ih, Ne.symm]

theorem mem_keys_of_mget_some {β : Type} {m : List (Nat × β)} {k : Nat} {v : β}
    (h : mget m k = some v) : k ∈ keys m := by
  by_contra hk
  rw [← mget_eq_none_iff] at hk
  simp [h] at hk

theorem mem_of_mget_some {β : Type} {m : List (Nat × β)} {k : Nat} {v : β}
    (h : mget m k = some v) : (k, v) ∈ m := by
  induction m with
  | nil => simp [mget] at h
  | cons hd t ih =>
    obtain ⟨a, b⟩ := hd
    by_cases hak : a = k
    · subst hak
      simp [mget] at h
      simp [h]
    · simp [mget, hak] at h
      simp [ih h]

theorem mget_mset_self {β : Type} (m : List (Nat × β)) (k : Nat) (v : β) :
    mget (mset m k v) k = some v := by
  induction m with
  | nil => simp [mset, mget]
  | cons hd t ih =>
    obtain ⟨a, b⟩ := hd
    by_cases h : a = k <;> simp [mset, mget, h, ih]

theorem mget_mset_ne {β : Type} (m : List (Nat × β)) (k k' : Nat) (v : β)
    (h : k' ≠ k) : mget (mset m k v) k' = mget m k' := by
  induction m with
  | nil => simp [mset, mget, Ne.symm h]
  | cons hd t ih =>
    obtain ⟨a, b⟩ := hd
    by_cases hak : a = k
    · subst hak
      simp [mset, mget, Ne.symm h]
    · simp [mset, mget, hak, ih]

theorem keys_mset_of_mem {β : Type} (m : List (Nat × β)) (k : Nat) (v : β)
    (hk : k ∈ keys m) : keys (mset m k v) = keys m := by
  induction m with
  | nil => simp [keys] at hk
  | cons hd t ih =>
    obtain ⟨a, b⟩ := hd
    by_cases h : a = k
    · subst h
      simp [mset, keys]
    · simp only [keys_cons, List.mem_cons] at hk
      rcases hk with hk | hk
      · exact absurd hk.symm h
      · rw [show mset ((a, b) :: t) k v = (a, b) :: mset t k v from by simp [mset, h]]
        rw [keys_cons, keys_cons, ih hk]

theorem keys_mset_of_not_mem {β : Type} (m : List (Nat × β)) (k : Nat) (v : β)
    (hk : k ∉ keys m) : keys (mset m k v) = keys m ++ [k] := by
  induction m with
  | nil => simp [mset]
  | cons hd t ih =>
    obtain ⟨a, b⟩ := hd
    simp only [keys_cons, List.mem_cons] at hk
    push_neg at hk
    rw [show mset ((a, b) :: t) k v = (a, b) :: mset t k v from by simp [mset, Ne.symm hk.1]]
    rw [keys_cons, keys_cons, ih hk.2]
    rfl

theorem mem_keys_mset {β : Type} (m : List (Nat × β)) (k k' : Nat) (v : β) :
    k' ∈ keys (mset m k v) ↔ k' ∈ keys m ∨ k' = k := by
  by_cases hk : k ∈ keys m
  · rw [keys_mset_of_mem m k v hk]
    constructor
    · exact Or.inl
    · rintro (h | rfl)
      · exact h
      · exact hk
  · rw [keys_mset_of_not_mem m k v hk]
    simp

theorem nodup_keys_mset {β : Type} (m : List (Nat × β)) (k : Nat) (v : β)
    (h : (keys m).Nodup) : (keys (mset m k v)).Nodup := by
  by_cases hk : k ∈ keys m
  · rw [keys_mset_of_mem m k v hk]
    exact h
  · rw [keys_mset_of_not_mem m k v hk]
    simp [List.nodup_append, h, hk]

theorem mget_mdel_self {β : Type} (m : List (Nat × β)) (k : Nat) :
    mget (mdel m k) k = none := by
  induction m with
  | nil => simp [mdel, mget]
  | cons hd t ih =>
    obtain ⟨a, b⟩ := hd
    by_cases h : a = k <;> simp [mdel, mget, h, ih]

theorem mget_mdel_ne {β : Type} (m : List (Nat × β)) (k k' : Nat)
    (h : k' ≠ k) : mget (mdel m k) k' = mget m k' := by
  induction m with
  | nil => simp [mdel]
  | cons hd t ih =>
    obtain ⟨a, b⟩ := hd
    by_cases hak : a = k
    · subst hak
      simp [mdel, mget, Ne.symm h, ih]
    · by_cases hak' : a = k' <;> simp [mdel, mget, hak, hak', h, ih]

theorem mem_keys_of_mem {β : Type} {m : List (Nat × β)} {k : Nat} {v : β}
    (h : (k, v) ∈ m) : k ∈ keys m :=
  List.mem_map_of_mem Prod.fst h

theorem mem_keys_mdel {β : Type} (m : List (Nat × β)) (k k' : Nat) :
    k' ∈ keys (mdel m k) ↔ k' ∈ keys m ∧ k' ≠ k := by
  induction m with
  | nil => simp [mdel]
  | cons hd t ih =>
    obtain ⟨a, b⟩ := hd
    by_cases h : a = k
    · subst h
      rw [show mdel ((a, b) :: t) a = mdel t a from by simp [mdel]]
      rw [ih, keys_cons]
      simp only [List.mem_cons]
      constructor
      · rintro ⟨h1, h2⟩
        exact ⟨Or.inr h1, h2⟩
      · rintro ⟨rfl | h1, h2⟩
        · exact absurd rfl h2
        · exact ⟨h1, h2⟩
    · rw [show mdel ((a, b) :: t) k = (a, b) :: mdel t k from by simp [mdel, h]]
      rw [keys_cons, keys_cons]
      simp only [List.mem_cons, ih]
      constructor
      · rintro (rfl | ⟨h1, h2⟩)
        · exact ⟨Or.inl rfl, fun hh => h hh⟩
        · exact ⟨Or.inr h1, h2⟩
      · rintro ⟨rfl | h1, h2⟩
        · exact Or.inl rfl
        · exact Or.inr ⟨h1, h2⟩

theorem mdel_sublist {β : Type} (m : List (Nat × β)) (k : Nat) :
    (mdel m k).Sublist m := by
  induction m with
  | nil => simp [mdel]
  | cons hd t ih =>
    obtain ⟨a, b⟩ := hd
    by_cases h : a = k
    · rw [show mdel ((a, b) :: t) k = mdel t k from by simp [mdel, h]]
      exact ih.trans (List.sublist_cons_self _ _)
    · rw [show mdel ((a, b) :: t) k = (a, b) :: mdel t k from by simp [mdel, h]]
      exact ih.cons₂ (a, b)

theorem nodup_keys_mdel {β : Type} (m : List (Nat × β)) (k : Nat)
    (h : (keys m).Nodup) : (keys (mdel m k)).Nodup :=
  (((mdel_sublist m k).map Prod.fst)).nodup h

theorem mget_functional_mem {β : Type} {m : List (Nat × β)} {a : Nat} {b c : β}
    (hn : (keys m).Nodup) (hb : (a, b) ∈ m) (hc : (a, c) ∈ m) : b = c := by
  induction m with
  | nil => simp at hb
  | cons hd t ih =>
    obtain ⟨x, y⟩ := hd
    rw [keys_cons, List.nodup_cons] at hn
    rcases List.mem_cons.mp hb with hb1 | hb1 <;>
      rcases List.mem_cons.mp hc with hc1 | hc1
    · rw [Prod.mk.injEq] at hb1 hc1
      exact hb1.2.trans hc1.2.symm
    · rw [Prod.mk.injEq] at hb1
      exact absurd (hb1.1 ▸ mem_keys_of_mem hc1) hn.1
    · rw [Prod.mk.injEq] at hc1
      exact absurd (hc1.1 ▸ mem_keys_of_mem hb1) hn.1
    · exact ih hn.2 hb1 hc1

/-- The `badWords` list of `server.js` (all entries are nonempty, lowercase,
purely alphabetic strings — no regex metacharacters). -/
def badWords : List (List Char) :=
  ["spam", "scam", "porn", "xxx", "sex", "nude", "drugs", "fuck", "shit",
   "bitch", "asshole", "dick", "pussy", "nigger", "faggot"].map String.toList

/-- Does `w` match case-insensitively at the very start of `s`?  Mirrors a
regex-literal match attempt at one position with the `i` flag (both the JS
`toLowerCase` comparison and the `i` flag lower each character). -/
def ciStartsWith : List Char → List Char → Bool
  | [], _ => true
  | _ :: _, [] => false
  | a :: as, b :: bs => (a.toLower == b.toLower) && ciStartsWith as bs

/-- Does `w` occur (case-insensitively) anywhere in `s`?  Mirrors
`lowerText.includes(word)`. -/
def ciContains (w : List Char) : List Char → Bool
  | [] => ciStartsWith w []
  | c :: cs => ciStartsWith w (c :: cs) || ciContains w cs

/-- `containsBadWords(text)`: `badWords.some(word => lowerText.includes(word))`. -/
def containsBadWords (t : List Char) : Bool :=
  badWords.any fun w => ciContains w t

/-- Number of non-overlapping, left-to-right, case-insensitive occurrences of
`w` in `s` — the length of `lowerText.match(new RegExp(word, 'gi'))`. -/
def countOccCI (w : List Char) : List Char → Nat
  | [] => 0
  | c :: cs =>
    if ciStartsWith w (c :: cs) then
      1 + countOccCI w (List.drop (w.length - 1) cs)
    else
      countOccCI w cs
termination_by s => s.length
decreasing_by
  · simp only [List.length_cons, List.length_drop]
    omega
  · simp only [List.length_cons]
    omega

/-- `countBadWords(text)`: sums the per-word global-regex match counts. -/
def countBadWords (t : List Char) : Nat :=
  badWords.foldl (fun acc w => acc + countOccCI w t) 0

/-- One `maskedText.replace(new RegExp(word, 'gi'), '*'.repeat(word.length))`
pass: replace each non-overlapping, left-to-right, case-insensitive
occurrence of `w` with a run of `'*'` of the same length. -/
def maskWord (w : List Char) : List Char → List Char
  | [] => []
  | c :: cs =>
    if ciStartsWith w (c :: cs) then
      List.replicate w.length '*' ++ maskWord w (List.drop (w.length - 1) cs)
    else
      c :: maskWord w cs
termination_by s => s.length
decreasing_by
  · simp only [List.length_cons, List.length_drop]
    omega
  · simp only [List.length_cons]
    omega

/-- `maskBadWords(text)`: sequentially masks every word of `badWords`. -/
def maskBadWords (t : List Char) : List Char :=
  badWords.foldl (fun acc w => maskWord w acc) t

/-- Characters the JS regex class `\s` matches (ASCII portion). -/
def isSpaceCh (c : Char) : Bool :=
  c = ' ' || c = '\t' || c = '\n' || c = '\r'

/-- The JS regex class `[a-zA-Z0-9_]`. -/
def isWordChar (c : Char) : Bool :=
  ('a' ≤ c && c ≤ 'z') || ('A' ≤ c && c ≤ 'Z') || ('0' ≤ c && c ≤ '9') || c = '_'

/-- The literal heads of the alternatives of `linkRegex`, each paired with
`true` when the remainder class is `[a-zA-Z0-9_]+` (the `@mention`
alternative) and `false` when it is `[^\s]+`. -/
def linkMarkers : List (List Char × Bool) :=
  [("http://", false), ("https://", false), ("www.", false), ("@", true),
   ("t.me/", false), ("telegram.me/", false), ("wa.me/", false),
   ("instagram.com/", false), ("facebook.com/", false), ("tiktok.com/", false),
   ("youtube.com/", false), ("youtu.be/", false)].map fun p => (p.1.toList, p.2)

/-- Does some alternative of `linkRegex` match starting exactly at `s`? -/
def linkAt (s : List Char) : Bool :=
  linkMarkers.any fun mk =>
    ciStartsWith mk.1 s &&
      (match List.drop mk.1.length s with
       | [] => false
       | c :: _ => if mk.2 then isWordChar c else !isSpaceCh c)

/-- `containsLinks(text)`: some position of the text starts a link match.
(The JS code calls `.test` on a shared `g`-flagged regex whose `lastIndex`
carries over between calls; that statefulness is not modelled.) -/
def containsLinks : List Char → Bool
  | [] => false
  | c :: cs => linkAt (c :: cs) || containsLinks cs

/-- Length consumed by the leftmost-alternative match at the head of `s`
(marker plus the maximal `[^\s]+` / `[a-zA-Z0-9_]+` run), if any. -/
def matchLinkLen (s : List Char) : Option Nat :=
  (linkMarkers.find? fun mk =>
    ciStartsWith mk.1 s &&
      (match List.drop mk.1.length s with
       | [] => false
       | c :: _ => if mk.2 then isWordChar c else !isSpaceCh c)).map
    fun mk =>
      mk.1.length +
        ((List.drop mk.1.length s).takeWhile fun c =>
          if mk.2 then isWordChar c else !isSpaceCh c).length

/-- `countLinks(text)`: number of non-overlapping matches of `linkRegex`. -/
def countLinks : List Char → Nat
  | [] => 0
  | c :: cs =>
    match matchLinkLen (c :: cs) with
    | some n => 1 + countLinks (List.drop (n - 1) cs)
    | none => countLinks cs
termination_by s => s.length
decreasing_by
  · simp only [List.length_cons, List.length_drop]
    omega
  · simp only [List.length_cons]
    omega

theorem ciStartsWith_length {w s : List Char} (h : ciStartsWith w s = true) :
    w.length ≤ s.length := by
  induction w generalizing s with
  | nil => simp
  | cons a as ih =>
    cases s with
    | nil => simp [ciStartsWith] at h
    | cons b bs =>
      simp only [ciStartsWith, Bool.and_eq_true] at h
      simpa [Nat.succ_le_succ_iff] using ih h.2

theorem maskWord_length (w : List Char) (hw : w ≠ []) (s : List Char) :
    (maskWord w s).length = s.length := by
  induction s using maskWord.induct w with
  | case1 => simp [maskWord]
  | case2 c cs hm ih =>
    rw [maskWord, if_pos hm]
    have hwl : 1 ≤ w.length := by
      cases w with
      | nil => exact absurd rfl hw
      | cons _ _ => simp
    have hle : w.length ≤ cs.length + 1 := by
      simpa using ciStartsWith_length hm
    simp only [List.length_append, List.length_replicate, ih, List.length_drop,
      List.length_cons]
    omega
  | case3 c cs hm ih =>
    rw [maskWord, if_neg hm]
    simp [ih]

theorem maskBadWords_length (t : List Char) :
    (maskBadWords t).length = t.length := by
  have hgen : ∀ (ws : List (List Char)), (∀ w ∈ ws, w ≠ []) → ∀ s : List Char,
      (ws.foldl (fun acc w => maskWord w acc) s).length = s.length := by
    intro ws
    induction ws with
    | nil => intro _ s; rfl
    | cons w t ih =>
      intro hne s
      have h1 : w ≠ [] := hne w (List.mem_cons_self w t)
      have h2 : ∀ x ∈ t, x ≠ [] := fun x hx => hne x (List.mem_cons_of_mem w hx)
      simp only [List.foldl_cons]
      rw [ih h2, maskWord_length w h1]
  have hbw : ∀ w ∈ badWords, w ≠ [] := by decide
  exact hgen badWords hbw t

/-- Functional update of the user collection at one id
(`await user.save()` after mutating fields). -/
def setUser (f : Nat → UserRec) (k : Nat) (v : UserRec) : Nat → UserRec :=
  fun x => if x = k then v else f x

theorem setUser_self (f : Nat → UserRec) (k : Nat) : setUser f k (f k) = f := by
  funext x
  by_cases h : x = k <;> simp [setUser, h]

theorem setUser_at (f : Nat → UserRec) (k : Nat) (v : UserRec) :
    setUser f k v k = v := by
  simp [setUser]

theorem setUser_ne (f : Nat → UserRec) (k x : Nat) (v : UserRec) (h : x ≠ k) :
    setUser f k v x = f x := by
  simp [setUser, h]

/-- `checkPremiumStatus(user)` from `server.js` lines 192-202: premium counts
as active only when the flag is set, an expiry date exists and `now` is not
past it; an expired flag is cleared (and saved) as a side effect.  Returns
the (possibly updated) record and the effective premium status. -/
def checkPremiumStatus (u : UserRec) (now : Nat) : UserRec × Bool :=
  if u.isPremium then
    match u.premiumExpire with
    | some e => if now > e then ({ u with isPremium := false }, false) else (u, true)
    | none => (u, false)
  else
    (u, false)

/-- First pass of the premium branch of `findPartner` (lines 384-392): the
first queue entry whose id differs from the requester and whose stored user
record has the requested gender and a set `isPremium` flag (the raw flag —
the partner's expiry is not consulted). -/
def scanPremGender (users : Nat → UserRec) (q : List (Nat × QEntry))
    (uid : Nat) (g : Gender) : Option Nat :=
  match q with
  | [] => none
  | (pid, _) :: t =>
    if pid ≠ uid ∧ (users pid).gender = g ∧ (users pid).isPremium = true then
      some pid
    else
      scanPremGender users t uid g

/-- Second pass of the premium branch (lines 394-402): first entry of the
requested gender, premium or not. -/
def scanGender (users : Nat → UserRec) (q : List (Nat × QEntry))
    (uid : Nat) (g : Gender) : Option Nat :=
  match q with
  | [] => none
  | (pid, _) :: t =>
    if pid ≠ uid ∧ (users pid).gender = g then
      some pid
    else
      scanGender users t uid g

/-- Non-premium branch of `findPartner` (lines 403-410): the first entry with
a different id, with no check whatsoever on the partner's record. -/
def scanAny (q : List (Nat × QEntry)) (uid : Nat) : Option Nat :=
  match q with
  | [] => none
  | (pid, _) :: t => if pid ≠ uid then some pid else scanAny t uid

/-- The enqueue tail of `findPartner` (lines 412-427).  A premium requester is
put at the *front* of the queue by clearing the map and re-inserting
(`waitingQueue.clear(); waitingQueue.set(userId, …); queueArray.forEach(set)`);
a regular requester is appended at the back. -/
def enqueueUser (q : List (Nat × QEntry)) (uid : Nat) (pref : Option Gender)
    (now : Nat) (isPrem : Bool) : List (Nat × QEntry) :=
  if isPrem then
    q.foldl (fun m kv => mset m kv.1 kv.2) [(uid, ⟨pref, now, true⟩)]
  else
    mset q uid ⟨pref, now, false⟩

/-- `findPartner(userId, preferredGender)` (lines 374-430).  Removes the
requester's stale queue entry, determines effective premium status (side
effect: clears an expired flag), scans the queue (two-tier gender search for
an effectively-premium requester with a concrete preference, first-come
otherwise), and either removes and returns the matched partner or enqueues
the requester.  Returns `(matched partner?, new state)`. -/
def findPartner (s : BotState) (uid : Nat) (pref : Option Gender) (now : Nat) :
    Option Nat × BotState :=
  let q0 := mdel s.waitingQueue uid
  let cp := checkPremiumStatus (s.users uid) now
  let users2 := setUser s.users uid cp.1
  let matched : Option Nat :=
    match pref, cp.2 with
    | some g, true =>
      match scanPremGender users2 q0 uid g with
      | some p => some p
      | none => scanGender users2 q0 uid g
    | some _, false => scanAny q0 uid
    | none, _ => scanAny q0 uid
  match matched with
  | some p =>
    (some p, { s with users := users2, waitingQueue := mdel q0 p })
  | none =>
    (none, { s with users := users2,
                    waitingQueue := enqueueUser q0 uid pref now cp.2 })

/-- `startChat(user1Id, user2Id)` (lines 432-442): unconditionally writes both
directed mappings into `activeChats` and deletes both ids from
`waitingQueue`.  There is no `AlreadyInSession` check of any kind. -/
def startChat (s : BotState) (u1 u2 : Nat) : BotState :=
  { s with
    activeChats := mset (mset s.activeChats u1 u2) u2 u1,
    waitingQueue := mdel (mdel s.waitingQueue u1) u2 }

/-- `endChat(userId)` (lines 472-480): if the user has a partner, removes both
directed mappings and returns the partner, else returns null. -/
def endChat (s : BotState) (uid : Nat) : Option Nat × BotState :=
  match mget s.activeChats uid with
  | some p => (some p, { s with activeChats := mdel (mdel s.activeChats uid) p })
  | none => (none, s)

/-- The `type` argument of `checkAndAutoBan`. -/
inductive AbuseType where
  | badwords
  | links
  | repeatSpam
  | flood
  | reports
deriving DecidableEq, Repr

/-- `checkAndAutoBan(user, reason, type)` (lines 224-264): premium users (raw
flag) are exempt; otherwise a threshold test per type (`flood` always bans);
on a ban the user is deactivated (permanently) and `endChat` is called.
Returns whether a ban fired, plus the new state. -/
def checkAndAutoBan (s : BotState) (uid : Nat) (ty : AbuseType) :
    Bool × BotState :=
  let u := s.users uid
  if u.isPremium then
    (false, s)
  else
    let shouldBan : Bool :=
      match ty with
      | .badwords => u.badWordCount ≥ 50
      | .links => u.linkSpamCount ≥ 20
      | .repeatSpam => u.repeatSpamCount ≥ 15
      | .flood => true
      | .reports => u.reportCount ≥ 50
    if shouldBan then
      let s2 := { s with users := setUser s.users uid { u with isActive := false } }
      (true, (endChat s2 uid).2)
    else
      (false, s)

/-- Body of an inbound chat message: a text, or any non-text media item (the
media kinds — photo, video, document, audio, voice, sticker — all behave
identically with respect to the modelled state). -/
inductive MsgBody where
  | text (t : List Char)
  | media
deriving DecidableEq, Repr

/-- Observable outcome of relaying one inbound message. -/
inductive RelayOutcome where
  | noSession
  | restricted
  | autoBanned
  | relayed (t : List Char)
  | filteredRelayed (t : List Char)
  | mediaRelayed
  | mediaBlocked
deriving DecidableEq, Repr

/-- Flood detection (lines 2218-2226): push `now`, evict entries ≥ 10 s old,
ban when 20 or more remain. -/
def floodStep (s : BotState) (uid : Nat) (now : Nat) : Bool × BotState :=
  let u := s.users uid
  let fm := (u.floodMessages ++ [now]).filter fun t => now - t < 10000
  let s1 := { s with users := setUser s.users uid { u with floodMessages := fm } }
  if fm.length ≥ 20 then checkAndAutoBan s1 uid .flood else (false, s1)

/-- Bad-word detection (lines 2228-2236). -/
def badwordStep (s : BotState) (uid : Nat) (t : List Char) : Bool × BotState :=
  if containsBadWords t then
    let u := s.users uid
    let s1 := { s with
      users := setUser s.users uid
        { u with badWordCount := u.badWordCount + countBadWords t } }
    checkAndAutoBan s1 uid .badwords
  else
    (false, s)

/-- Link-spam detection (lines 2238-2246). -/
def linkStep (s : BotState) (uid : Nat) (t : List Char) : Bool × BotState :=
  if containsLinks t then
    let u := s.users uid
    let s1 := { s with
      users := setUser s.users uid
        { u with linkSpamCount := u.linkSpamCount + countLinks t } }
    checkAndAutoBan s1 uid .links
  else
    (false, s)

/-- Repeat-spam detection (lines 2248-2262): push the text onto a 20-deep
window (drop the oldest beyond 20), count exact duplicates, ban at 15. -/
def repeatStep (s : BotState) (uid : Nat) (t : List Char) : Bool × BotState :=
  let u := s.users uid
  let lm0 := u.lastMessages ++ [t]
  let lm := if lm0.length > 20 then lm0.drop 1 else lm0
  let u1 := { u with lastMessages := lm }
  let s1 := { s with users := setUser s.users uid u1 }
  let cnt := (lm.filter fun m => m = t).length
  if cnt ≥ 15 then
    let s2 := { s1 with
      users := setUser s1.users uid { u1 with repeatSpamCount := cnt } }
    checkAndAutoBan s2 uid .repeatSpam
  else
    (false, s1)

/-- The anti-abuse block of the message handler (lines 2214-2263), executed
only for senders whose raw `isPremium` flag is false.  Returns whether an
auto-ban fired (in which case the message is not relayed). -/
def relayAbuse (s : BotState) (uid : Nat) (now : Nat) (body : MsgBody) :
    Bool × BotState :=
  let r1 := floodStep s uid now
  if r1.1 then r1
  else
    match body with
    | .media => (false, r1.2)
    | .text t =>
      let r2 := badwordStep r1.2 uid t
      if r2.1 then r2
      else
        let r3 := linkStep r2.2 uid t
        if r3.1 then r3
        else
          repeatStep r3.2 uid t

/-- The forwarding tail of the message handler (lines 2265-2323): text is
relayed masked when it contains bad words, otherwise verbatim; media is
blocked when the *recipient's* safe mode is on. -/
def forwardMsg (s : BotState) (body : MsgBody) (partnerSafeMode : Bool) :
    RelayOutcome × BotState :=
  match body with
  | .text t =>
    if containsBadWords t then (.filteredRelayed (maskBadWords t), s)
    else (.relayed t, s)
  | .media =>
    if partnerSafeMode then (.mediaBlocked, s) else (.mediaRelayed, s)

/-- The chat-message part of `bot.on('message')` (lines 2196-2334): route via
`activeChats`, end the chat if either side is inactive, run the anti-abuse
block for non-premium senders (raw flag), then forward. -/
def relayMessage (s : BotState) (uid : Nat) (now : Nat) (body : MsgBody) :
    RelayOutcome × BotState :=
  match mget s.activeChats uid with
  | none => (.noSession, s)
  | some pid =>
    if (s.users uid).isActive = false ∨ (s.users pid).isActive = false then
      (.restricted, (endChat s uid).2)
    else if (s.users uid).isPremium then
      forwardMsg s body (s.users pid).safeMode
    else
      let r := relayAbuse s uid now body
      if r.1 then (.autoBanned, r.2)
      else forwardMsg r.2 body (s.users pid).safeMode

/-- The shared tail of both match-request handlers:
`const partnerId = await findPartner(userId, g); if (partnerId) await
startChat(userId, partnerId);` — the requester either gets a session started
or stays enqueued by `findPartner`. -/
def matchOrWait (s : BotState) (uid : Nat) (pref : Option Gender) (now : Nat) :
    BotState :=
  match findPartner s uid pref now with
  | (some p, s2) => startChat s2 uid p
  | (none, s2) => s2

/-- The `/chat` command (lines 555-604): reject when already chatting or
banned; a premium user is shown the gender keyboard (no state change beyond
the lazy premium-expiry write); a regular user is matched immediately or
enqueued. -/
def chatCmd (s : BotState) (uid : Nat) (now : Nat) : BotState :=
  if mhas s.activeChats uid then s
  else if (s.users uid).isActive = false then s
  else
    let cp := checkPremiumStatus (s.users uid) now
    let s2 := { s with users := setUser s.users uid cp.1 }
    if cp.2 then s2
    else matchOrWait s2 uid none now

/-- The `find_male` / `find_female` / `find_random` callback (lines
1590-1615): reject when already chatting (note: no `isActive` check here),
then match or wait. -/
def findCb (s : BotState) (uid : Nat) (pref : Option Gender) (now : Nat) :
    BotState :=
  if mhas s.activeChats uid then s
  else matchOrWait s uid pref now

/-- The `/stop` command (lines 606-623): `endChat` plus removal of any
waiting-queue entry. -/
def stopCmd (s : BotState) (uid : Nat) : BotState :=
  let s2 := (endChat s uid).2
  { s2 with waitingQueue := mdel s2.waitingQueue uid }

/-- The admin `/ban` command (lines 1351-1383): no-op when already banned,
otherwise deactivate and `endChat`.  Note the waiting queue is *not*
cleaned. -/
def adminBanCmd (s : BotState) (uid : Nat) : BotState :=
  if (s.users uid).isActive = false then s
  else
    let s2 := { s with
      users := setUser s.users uid { s.users uid with isActive := false } }
    (endChat s2 uid).2

/-- The admin `/endchat` command (lines 1004-1034) — a bare `endChat`. -/
def forceEndCmd (s : BotState) (uid : Nat) : BotState :=
  (endChat s uid).2

/-- Number of distinct values in a list
(`Report.distinct('reporterUserId', …).length`). -/
def uniqueCount (l : List Nat) : Nat :=
  (l.foldl (fun acc x => if x ∈ acc then acc else acc ++ [x]) []).length

/-- The `report_<reason>_<id>` callback (lines 1667-1730): premium targets
cannot be reported; a same-pair report within 7 days is dropped; otherwise a
row is stored, the target's `reportCount` is recomputed as the number of
*distinct* reporters, and `checkAndAutoBan(…, 'reports')` runs. -/
def reportCb (s : BotState) (reporterId reportedId : Nat) (now : Nat) :
    BotState :=
  if (s.users reportedId).isPremium then s
  else
    let sevenDaysAgo := now - 7 * 24 * 60 * 60 * 1000
    if s.reports.any fun r =>
        r.reporter = reporterId ∧ r.reported = reportedId ∧
          sevenDaysAgo ≤ r.date then
      s
    else
      let reports2 := s.reports ++ [⟨reportedId, reporterId, now⟩]
      let uniq := uniqueCount
        ((reports2.filter fun r => r.reported = reportedId).map
          fun r => r.reporter)
      let s2 := { s with
        reports := reports2,
        users := setUser s.users reportedId
          { s.users reportedId with reportCount := uniq } }
      (checkAndAutoBan s2 reportedId .reports).2

/-- The inbound events whose handlers touch the queue / session state: match
requests (`/chat` and the `find_*` callbacks), session ends (`/stop` and the
admin `endChat` paths), admin bans, and chat-message relays. -/
inductive Event where
  | chat (uid : Nat) (now : Nat)
  | findPref (uid : Nat) (pref : Option Gender) (now : Nat)
  | stop (uid : Nat)
  | forceEnd (uid : Nat)
  | ban (uid : Nat)
  | msg (uid : Nat) (now : Nat) (body : MsgBody)

/-- One event-handler dispatch. -/
def step (s : BotState) (e : Event) : BotState :=
  match e with
  | .chat uid now => chatCmd s uid now
  | .findPref uid pref now => findCb s uid pref now
  | .stop uid => stopCmd s uid
  | .forceEnd uid => forceEndCmd s uid
  | .ban uid => adminBanCmd s uid
  | .msg uid now body => (relayMessage s uid now body).2

/-- A whole run of the single-threaded event loop. -/
def run (es : List Event) (s : BotState) : BotState :=
  es.foldl step s

/-- The process boot state: empty `activeChats` and `waitingQueue` maps, no
reports, an arbitrary registered-user table. -/
def initState (u0 : Nat → UserRec) : BotState :=
  { users := u0, activeChats := [], waitingQueue := [], reports := [] }

theorem mset_eq_append_of_not_mem {β : Type} (m : List (Nat × β)) (k : Nat)
    (v : β) (hk : k ∉ keys m) : mset m k v = m ++ [(k, v)] := by
  induction m with
  | nil => simp [mset]
  | cons hd t ih =>
    obtain ⟨a, b⟩ := hd
    rw [keys_cons, List.mem_cons] at hk
    push_neg at hk
    simp [mset, Ne.symm hk.1, ih hk.2]

theorem keys_append {β : Type} (m m' : List (Nat × β)) :
    keys (m ++ m') = keys m ++ keys m' := by
  simp [keys]

theorem foldl_mset_append {β : Type} (q : List (Nat × β)) :
    ∀ acc : List (Nat × β), (∀ kv ∈ q, kv.1 ∉ keys acc) → (keys q).Nodup →
    q.foldl (fun m kv => mset m kv.1 kv.2) acc = acc ++ q := by
  induction q with
  | nil => intro acc _ _; simp
  | cons kv t ih =>
    intro acc hd hq
    obtain ⟨k, v⟩ := kv
    rw [keys_cons, List.nodup_cons] at hq
    have hk : k ∉ keys acc := hd (k, v) (List.mem_cons_self _ _)
    simp only [List.foldl_cons]
    rw [mset_eq_append_of_not_mem acc k v hk]
    rw [ih (acc ++ [(k, v)]) ?_ hq.2]
    · simp
    · intro kv2 hkv2
      have h1 : kv2.1 ∉ keys acc := hd kv2 (List.mem_cons_of_mem _ hkv2)
      have h2 : kv2.1 ∈ keys t := List.mem_map_of_mem Prod.fst hkv2
      have h3 : kv2.1 ≠ k := fun he => hq.1 (he ▸ h2)
      rw [keys_append]
      simp only [List.mem_append]
      rintro (hc | hc)
      · exact h1 hc
      · simp only [keys_cons, keys_nil, List.mem_singleton] at hc
        exact h3 hc

theorem enqueueUser_prem_eq (q : List (Nat × QEntry)) (uid : Nat)
    (pref : Option Gender) (now : Nat) (hq : (keys q).Nodup)
    (hu : uid ∉ keys q) :
    enqueueUser q uid pref now true = (uid, ⟨pref, now, true⟩) :: q := by
  unfold enqueueUser
  rw [if_pos rfl]
  rw [foldl_mset_append q [(uid, ⟨pref, now, true⟩)] ?_ hq]
  · rfl
  · intro kv hkv
    simp only [keys_cons, keys_nil, List.mem_singleton]
    intro he
    exact hu (he ▸ List.mem_map_of_mem Prod.fst hkv)

theorem enqueueUser_reg_eq (q : List (Nat × QEntry)) (uid : Nat)
    (pref : Option Gender) (now : Nat) (hu : uid ∉ keys q) :
    enqueueUser q uid pref now false = q ++ [(uid, ⟨pref, now, false⟩)] := by
  unfold enqueueUser
  rw [if_neg (by simp)]
  exact mset_eq_append_of_not_mem q uid _ hu

theorem keys_enqueueUser (q : List (Nat × QEntry)) (uid : Nat)
    (pref : Option Gender) (now : Nat) (b : Bool) (hq : (keys q).Nodup)
    (hu : uid ∉ keys q) :
    (keys (enqueueUser q uid pref now b)).Nodup ∧
    (∀ x, x ∈ keys (enqueueUser q uid pref now b) ↔ x ∈ keys q ∨ x = uid) := by
  cases b
  · rw [enqueueUser_reg_eq q uid pref now hu, keys_append]
    constructor
    · simp [List.nodup_append, hq, hu]
    · intro x
      simp [keys]
  · rw [enqueueUser_prem_eq q uid pref now hq hu, keys_cons]
    constructor
    · simp [List.nodup_cons, hq, hu]
    · intro x
      simp only [List.mem_cons]
      tauto

theorem scanAny_some {q : List (Nat × QEntry)} {uid p : Nat}
    (h : scanAny q uid = some p) : p ≠ uid ∧ p ∈ keys q := by
  induction q with
  | nil => simp [scanAny] at h
  | cons kv t ih =>
    obtain ⟨pid, e⟩ := kv
    simp only [scanAny] at h
    split at h
    · rename_i hc
      injection h with h'
      subst h'
      exact ⟨hc, by simp⟩
    · obtain ⟨h1, h2⟩ := ih h
      exact ⟨h1, by simp [h2]⟩

theorem scanPremGender_some {users : Nat → UserRec} {q : List (Nat × QEntry)}
    {uid : Nat} {g : Gender} {p : Nat}
    (h : scanPremGender users q uid g = some p) :
    p ≠ uid ∧ p ∈ keys q ∧ (users p).gender = g ∧ (users p).isPremium = true := by
  induction q with
  | nil => simp [scanPremGender] at h
  | cons kv t ih =>
    obtain ⟨pid, e⟩ := kv
    simp only [scanPremGender] at h
    split at h
    · rename_i hc
      injection h with h'
      subst h'
      exact ⟨hc.1, by simp, hc.2.1, hc.2.2⟩
    · obtain ⟨h1, h2, h3, h4⟩ := ih h
      exact ⟨h1, by simp [h2], h3, h4⟩

theorem scanGender_some {users : Nat → UserRec} {q : List (Nat × QEntry)}
    {uid : Nat} {g : Gender} {p : Nat}
    (h : scanGender users q uid g = some p) :
    p ≠ uid ∧ p ∈ keys q ∧ (users p).gender = g := by
  induction q with
  | nil => simp [scanGender] at h
  | cons kv t ih =>
    obtain ⟨pid, e⟩ := kv
    simp only [scanGender] at h
    split at h
    · rename_i hc
      injection h with h'
      subst h'
      exact ⟨hc.1, by simp, hc.2⟩
    · obtain ⟨h1, h2, h3⟩ := ih h
      exact ⟨h1, by simp [h2], h3⟩

theorem findPartner_spec (s : BotState) (uid : Nat) (pref : Option Gender)
    (now : Nat) :
    (findPartner s uid pref now).2.activeChats = s.activeChats ∧
    (findPartner s uid pref now).2.reports = s.reports ∧
    ((∃ p, (findPartner s uid pref now).1 = some p ∧ p ≠ uid ∧
        p ∈ keys s.waitingQueue ∧
        (findPartner s uid pref now).2.waitingQueue =
          mdel (mdel s.waitingQueue uid) p) ∨
     ((findPartner s uid pref now).1 = none ∧
        (findPartner s uid pref now).2.waitingQueue =
          enqueueUser (mdel s.waitingQueue uid) uid pref now
            (checkPremiumStatus (s.users uid) now).2)) := by
  unfold findPartner
  dsimp only
  rcases pref with _ | g
  · cases hs : scanAny (mdel s.waitingQueue uid) uid with
    | none => simp only [hs]; exact ⟨by simp, by simp, Or.inr ⟨by simp, by simp⟩⟩
    | some p =>
      simp only [hs]
      obtain ⟨h1, h2⟩ := scanAny_some hs
      rw [mem_keys_mdel] at h2
      exact ⟨by simp, by simp, Or.inl ⟨p, by simp, h1, h2.1, by simp⟩⟩
  · cases hcp : (checkPremiumStatus (s.users uid) now).2 with
    | false =>
      simp only [hcp]
      cases hs : scanAny (mdel s.waitingQueue uid) uid with
      | none => simp only [hs]; exact ⟨by simp, by simp, Or.inr ⟨by simp, by simp⟩⟩
      | some p =>
        simp only [hs]
        obtain ⟨h1, h2⟩ := scanAny_some hs
        rw [mem_keys_mdel] at h2
        exact ⟨by simp, by simp, Or.inl ⟨p, by simp, h1, h2.1, by simp⟩⟩
    | true =>
      simp only [hcp]
      cases hs : scanPremGender (setUser s.users uid
          (checkPremiumStatus (s.users uid) now).1)
          (mdel s.waitingQueue uid) uid g with
      | some p =>
        simp only [hs]
        obtain ⟨h1, h2, _, _⟩ := scanPremGender_some hs
        rw [mem_keys_mdel] at h2
        exact ⟨by simp, by simp, Or.inl ⟨p, by simp, h1, h2.1, by simp⟩⟩
      | none =>
        simp only [hs]
        cases hg : scanGender (setUser s.users uid
            (checkPremiumStatus (s.users uid) now).1)
            (mdel s.waitingQueue uid) uid g with
        | none => simp only [hg]; exact ⟨by simp, by simp, Or.inr ⟨by simp, by simp⟩⟩
        | some p =>
          simp only [hg]
          obtain ⟨h1, h2, _⟩ := scanGender_some hg
          rw [mem_keys_mdel] at h2
          exact ⟨by simp, by simp, Or.inl ⟨p, by simp, h1, h2.1, by simp⟩⟩

theorem not_mem_keys_of_not_mhas {β : Type} {m : List (Nat × β)} {k : Nat}
    (h : ¬ mhas m k = true) : k ∉ keys m := by
  rw [← mget_eq_none_iff]
  unfold mhas at h
  cases hg : mget m k with
  | none => rfl
  | some v => rw [hg] at h; simp at h

theorem mget_mdel2_some {β : Type} {m : List (Nat × β)} {x y a : Nat} {b : β}
    (h : mget (mdel (mdel m x) y) a = some b) :
    mget m a = some b ∧ a ≠ x ∧ a ≠ y := by
  by_cases hay : a = y
  · subst hay
    rw [mget_mdel_self] at h
    cases h
  · rw [mget_mdel_ne _ _ _ hay] at h
    by_cases hax : a = x
    · subst hax
      rw [mget_mdel_self] at h
      cases h
    · rw [mget_mdel_ne _ _ _ hax] at h
      exact ⟨h, hax, hay⟩

/-- The exclusivity / symmetry invariant of the two in-memory maps: no
duplicated keys, no id both chatting and waiting, and `activeChats` is an
involution on its keys. -/
structure ChatInv (s : BotState) : Prop where
  acN : (keys s.activeChats).Nodup
  wqN : (keys s.waitingQueue).Nodup
  dis : ∀ k, k ∈ keys s.activeChats → k ∉ keys s.waitingQueue
  sym : ∀ a b, mget s.activeChats a = some b → mget s.activeChats b = some a

theorem inv_of_eq_maps {s s' : BotState} (h : ChatInv s)
    (hac : s'.activeChats = s.activeChats)
    (hwq : s'.waitingQueue = s.waitingQueue) : ChatInv s' := by
  constructor
  · rw [hac]; exact h.acN
  · rw [hwq]; exact h.wqN
  · intro k hk
    rw [hac] at hk
    rw [hwq]
    exact h.dis k hk
  · intro a b hab
    rw [hac] at hab ⊢
    exact h.sym a b hab

theorem inv_usersUpd {s : BotState} {f : Nat → UserRec} (h : ChatInv s) :
    ChatInv { s with users := f } :=
  ⟨h.acN, h.wqN, h.dis, h.sym⟩

theorem inv_endChat {s : BotState} (uid : Nat) (h : ChatInv s) :
    ChatInv (endChat s uid).2 := by
  unfold endChat
  cases hg : mget s.activeChats uid with
  | none => exact h
  | some p =>
    dsimp only
    constructor
    · exact nodup_keys_mdel _ _ (nodup_keys_mdel _ _ h.acN)
    · exact h.wqN
    · intro k hk
      rw [mem_keys_mdel] at hk
      rw [mem_keys_mdel] at hk
      exact h.dis k hk.1.1
    · intro a b hab
      obtain ⟨hab0, hau, hap⟩ := mget_mdel2_some hab
      have hba := h.sym a b hab0
      have hbu : b ≠ uid := by
        intro hbe
        rw [hbe, hg] at hba
        injection hba with h'
        exact hap h'.symm
      have hbp : b ≠ p := by
        intro hbe
        have hpu := h.sym uid p hg
        rw [hbe, hpu] at hba
        injection hba with h'
        exact hau h'.symm
      rw [mget_mdel_ne _ _ _ hbp, mget_mdel_ne _ _ _ hbu]
      exact hba

theorem inv_checkAndAutoBan {s : BotState} (uid : Nat) (ty : AbuseType)
    (h : ChatInv s) : ChatInv (checkAndAutoBan s uid ty).2 := by
  unfold checkAndAutoBan
  dsimp only
  split
  · exact h
  · split
    · exact inv_endChat uid (inv_usersUpd h)
    · exact h

theorem inv_floodStep {s : BotState} (uid now : Nat) (h : ChatInv s) :
    ChatInv (floodStep s uid now).2 := by
  unfold floodStep
  dsimp only
  split
  · exact inv_checkAndAutoBan uid .flood (inv_usersUpd h)
  · exact inv_usersUpd h

theorem inv_badwordStep {s : BotState} (uid : Nat) (t : List Char) (h : ChatInv s) :
    ChatInv (badwordStep s uid t).2 := by
  unfold badwordStep
  split
  · exact inv_checkAndAutoBan uid .badwords (inv_usersUpd h)
  · exact h

theorem inv_linkStep {s : BotState} (uid : Nat) (t : List Char) (h : ChatInv s) :
    ChatInv (linkStep s uid t).2 := by
  unfold linkStep
  split
  · exact inv_checkAndAutoBan uid .links (inv_usersUpd h)
  · exact h

theorem inv_repeatStep {s : BotState} (uid : Nat) (t : List Char) (h : ChatInv s) :
    ChatInv (repeatStep s uid t).2 := by
  unfold repeatStep
  dsimp only
  split <;> split <;>
    first
      | exact inv_checkAndAutoBan uid .repeatSpam (inv_of_eq_maps h rfl rfl)
      | exact inv_of_eq_maps h rfl rfl

theorem inv_relayAbuse {s : BotState} (uid now : Nat) (body : MsgBody)
    (h : ChatInv s) : ChatInv (relayAbuse s uid now body).2 := by
  unfold relayAbuse
  dsimp only
  split
  · exact inv_floodStep uid now h
  · cases body with
    | media => exact inv_floodStep uid now h
    | text t =>
      dsimp only
      split
      · exact inv_badwordStep uid t (inv_floodStep uid now h)
      · split
        · exact inv_linkStep uid t (inv_badwordStep uid t (inv_floodStep uid now h))
        · exact inv_repeatStep uid t
            (inv_linkStep uid t (inv_badwordStep uid t (inv_floodStep uid now h)))

theorem forwardMsg_state (s : BotState) (body : MsgBody) (b : Bool) :
    (forwardMsg s body b).2 = s := by
  cases body with
  | text t => by_cases hc : containsBadWords t = true <;> simp [forwardMsg, hc]
  | media => by_cases hc : b = true <;> simp [forwardMsg, hc]

theorem inv_relayMessage {s : BotState} (uid now : Nat) (body : MsgBody)
    (h : ChatInv s) : ChatInv (relayMessage s uid now body).2 := by
  unfold relayMessage
  cases hg : mget s.activeChats uid with
  | none => exact h
  | some pid =>
    dsimp only
    split
    · exact inv_endChat uid h
    · split
      · rw [forwardMsg_state]
        exact h
      · split
        · exact inv_relayAbuse uid now body h
        · rw [forwardMsg_state]
          exact inv_relayAbuse uid now body h

theorem inv_startChat {s : BotState} {a b : Nat} (h : ChatInv s)
    (ha : a ∉ keys s.activeChats) (hb : b ∉ keys s.activeChats) (hab : a ≠ b) :
    ChatInv (startChat s a b) := by
  unfold startChat
  constructor
  · show (keys (mset (mset s.activeChats a b) b a)).Nodup
    exact nodup_keys_mset _ _ _ (nodup_keys_mset _ _ _ h.acN)
  · show (keys (mdel (mdel s.waitingQueue a) b)).Nodup
    exact nodup_keys_mdel _ _ (nodup_keys_mdel _ _ h.wqN)
  · intro k
    show k ∈ keys (mset (mset s.activeChats a b) b a) →
      k ∉ keys (mdel (mdel s.waitingQueue a) b)
    intro hk
    rw [mem_keys_mset] at hk
    intro hkw
    rw [mem_keys_mdel] at hkw
    rw [mem_keys_mdel] at hkw
    obtain ⟨⟨hkw0, hka⟩, hkb⟩ := hkw
    rcases hk with hk | rfl
    · rw [mem_keys_mset] at hk
      rcases hk with hk | rfl
      · exact h.dis k hk hkw0
      · exact hka rfl
    · exact hkb rfl
  · intro x y
    show mget (mset (mset s.activeChats a b) b a) x = some y →
      mget (mset (mset s.activeChats a b) b a) y = some x
    intro hxy
    by_cases hxb : x = b
    · subst hxb
      rw [mget_mset_self] at hxy
      injection hxy with h'
      subst h'
      rw [mget_mset_ne _ _ _ _ hab, mget_mset_self]
    · rw [mget_mset_ne _ _ _ _ hxb] at hxy
      by_cases hxa : x = a
      · subst hxa
        rw [mget_mset_self] at hxy
        injection hxy with h'
        subst h'
        rw [mget_mset_self]
      · rw [mget_mset_ne _ _ _ _ hxa] at hxy
        have hy := h.sym x y hxy
        have hya : y ≠ a := by
          rintro rfl
          exact ha (mem_keys_of_mget_some hy)
        have hyb : y ≠ b := by
          rintro rfl
          exact hb (mem_keys_of_mget_some hy)
        rw [mget_mset_ne _ _ _ _ hyb, mget_mset_ne _ _ _ _ hya]
        exact hy

theorem inv_findPartner {s : BotState} {uid : Nat} (pref : Option Gender)
    (now : Nat) (h : ChatInv s) (hu : uid ∉ keys s.activeChats) :
    ChatInv (findPartner s uid pref now).2 := by
  obtain ⟨hac, _, hcase⟩ := findPartner_spec s uid pref now
  rcases hcase with ⟨p, _, _, _, hwq⟩ | ⟨_, hwq⟩
  · constructor
    · rw [hac]; exact h.acN
    · rw [hwq]; exact nodup_keys_mdel _ _ (nodup_keys_mdel _ _ h.wqN)
    · intro k hk
      rw [hac] at hk
      rw [hwq]
      intro hkw
      rw [mem_keys_mdel] at hkw
      rw [mem_keys_mdel] at hkw
      exact h.dis k hk hkw.1.1
    · intro a b hab
      rw [hac] at hab ⊢
      exact h.sym a b hab
  · have hq0 : uid ∉ keys (mdel s.waitingQueue uid) := by
      rw [mem_keys_mdel]
      rintro ⟨_, hc⟩
      exact hc rfl
    have hq0n : (keys (mdel s.waitingQueue uid)).Nodup :=
      nodup_keys_mdel _ _ h.wqN
    obtain ⟨hn1, hn2⟩ := keys_enqueueUser (mdel s.waitingQueue uid) uid pref now
      (checkPremiumStatus (s.users uid) now).2 hq0n hq0
    constructor
    · rw [hac]; exact h.acN
    · rw [hwq]; exact hn1
    · intro k hk
      rw [hac] at hk
      rw [hwq]
      intro hkw
      rcases (hn2 k).mp hkw with hc | rfl
      · rw [mem_keys_mdel] at hc
        exact h.dis k hk hc.1
      · exact hu hk
    · intro a b hab
      rw [hac] at hab ⊢
      exact h.sym a b hab

theorem inv_matchOrWait {s : BotState} {uid : Nat} (pref : Option Gender)
    (now : Nat) (h : ChatInv s) (hu : uid ∉ keys s.activeChats) :
    ChatInv (matchOrWait s uid pref now) := by
  unfold matchOrWait
  obtain ⟨hac, _, hcase⟩ := findPartner_spec s uid pref now
  have hinv2 := inv_findPartner pref now h hu
  rcases hfp : findPartner s uid pref now with ⟨mp, s2⟩
  rw [hfp] at hinv2 hac
  cases mp with
  | none => exact hinv2
  | some p =>
    rcases hcase with ⟨p', hp', hne, hmem, _⟩ | ⟨hnone, _⟩
    · rw [hfp] at hp'
      injection hp' with h'
      subst h'
      refine inv_startChat hinv2 ?_ ?_ (Ne.symm hne)
      · rw [hac]
        exact hu
      · rw [hac]
        intro hpac
        exact h.dis p hpac hmem
    · rw [hfp] at hnone
      cases hnone

theorem inv_chatCmd {s : BotState} (uid now : Nat) (h : ChatInv s) :
    ChatInv (chatCmd s uid now) := by
  unfold chatCmd
  split
  · exact h
  · rename_i hmh
    split
    · exact h
    · dsimp only
      split
      · exact inv_of_eq_maps h rfl rfl
      · exact inv_matchOrWait none now (inv_of_eq_maps h rfl rfl)
          (not_mem_keys_of_not_mhas hmh)

theorem inv_findCb {s : BotState} (uid : Nat) (pref : Option Gender) (now : Nat)
    (h : ChatInv s) : ChatInv (findCb s uid pref now) := by
  unfold findCb
  split
  · exact h
  · rename_i hmh
    exact inv_matchOrWait pref now h (not_mem_keys_of_not_mhas hmh)

theorem inv_stopCmd {s : BotState} (uid : Nat) (h : ChatInv s) :
    ChatInv (stopCmd s uid) := by
  unfold stopCmd
  dsimp only
  have h2 := inv_endChat uid h
  constructor
  · show (keys (endChat s uid).2.activeChats).Nodup
    exact h2.acN
  · show (keys (mdel (endChat s uid).2.waitingQueue uid)).Nodup
    exact nodup_keys_mdel _ _ h2.wqN
  · intro k
    show k ∈ keys (endChat s uid).2.activeChats →
      k ∉ keys (mdel (endChat s uid).2.waitingQueue uid)
    intro hk hkw
    rw [mem_keys_mdel] at hkw
    exact h2.dis k hk hkw.1
  · intro a b
    show mget (endChat s uid).2.activeChats a = some b →
      mget (endChat s uid).2.activeChats b = some a
    exact h2.sym a b

theorem inv_adminBanCmd {s : BotState} (uid : Nat) (h : ChatInv s) :
    ChatInv (adminBanCmd s uid) := by
  unfold adminBanCmd
  split
  · exact h
  · exact inv_endChat uid (inv_of_eq_maps h rfl rfl)

theorem inv_step {s : BotState} (e : Event) (h : ChatInv s) :
    ChatInv (step s e) := by
  cases e with
  | chat uid now => exact inv_chatCmd uid now h
  | findPref uid pref now => exact inv_findCb uid pref now h
  | stop uid => exact inv_stopCmd uid h
  | forceEnd uid => exact inv_endChat uid h
  | ban uid => exact inv_adminBanCmd uid h
  | msg uid now body => exact inv_relayMessage uid now body h

theorem inv_run {s : BotState} (es : List Event) (h : ChatInv s) :
    ChatInv (run es s) := by
  induction es generalizing s with
  | nil => exact h
  | cons e t ih => exact ih (inv_step e h)

theorem inv_initState (u0 : Nat → UserRec) : ChatInv (initState u0) := by
  constructor
  · exact List.nodup_nil
  · exact List.nodup_nil
  · intro k hk
    simp [initState] at hk
  · intro a b hab
    simp [initState, mget] at hab

/-- A default registered regular user (active, not premium, clean counters). -/
def baseUser : UserRec :=
  { gender := .male, isActive := true, isPremium := false, premiumExpire := none,
    safeMode := true, badWordCount := 0, linkSpamCount := 0, repeatSpamCount := 0,
    reportCount := 0, floodMessages := [], lastMessages := [] }

/-- A registered user with a currently-valid premium subscription. -/
def premUserOf (g : Gender) : UserRec :=
  { baseUser with gender := g, isPremium := true,
                  premiumExpire := some 1000000000 }

/-- C1: for every sequence of match requests (`/chat`, `find_*` callbacks),
session ends (`/stop`, `endChat`), admin bans and message relays, at every
point no user id is simultaneously a key of `activeChats` and of
`waitingQueue`, no user id is mapped to two different partners, and the
partner relation is symmetric (`activeChats.get(activeChats.get(u)) == u`). -/
theorem C1_exclusivity_and_symmetry (es : List Event) (u0 : Nat → UserRec) :
    (∀ k, ¬(k ∈ keys (run es (initState u0)).activeChats ∧
            k ∈ keys (run es (initState u0)).waitingQueue)) ∧
    (∀ a b c, (a, b) ∈ (run es (initState u0)).activeChats →
       (a, c) ∈ (run es (initState u0)).activeChats → b = c) ∧
    (∀ a b, mget (run es (initState u0)).activeChats a = some b →
       mget (run es (initState u0)).activeChats b = some a) := by
  have h := inv_run es (inv_initState u0)
  refine ⟨?_, ?_, h.sym⟩
  · intro k hk
    exact h.dis k hk.1 hk.2
  · intro a b c hb hc
    exact mget_functional_mem h.acN hb hc

/-- C1 witness: the invariant instantiated on a concrete two-user run in
which users 1 and 2 get matched. -/
theorem C1_exclusivity_and_symmetry_witness :
    (∀ k, ¬(k ∈ keys (run [Event.chat 1 0, Event.chat 2 0]
              (initState (fun _ => baseUser))).activeChats ∧
            k ∈ keys (run [Event.chat 1 0, Event.chat 2 0]
              (initState (fun _ => baseUser))).waitingQueue)) ∧
    (∀ a b c, (a, b) ∈ (run [Event.chat 1 0, Event.chat 2 0]
              (initState (fun _ => baseUser))).activeChats →
       (a, c) ∈ (run [Event.chat 1 0, Event.chat 2 0]
              (initState (fun _ => baseUser))).activeChats → b = c) ∧
    (∀ a b, mget (run [Event.chat 1 0, Event.chat 2 0]
              (initState (fun _ => baseUser))).activeChats a = some b →
       mget (run [Event.chat 1 0, Event.chat 2 0]
              (initState (fun _ => baseUser))).activeChats b = some a) :=
  C1_exclusivity_and_symmetry [Event.chat 1 0, Event.chat 2 0]
    (fun _ => baseUser)

/-- C2: a failing run for the claim that banned users are never matched.
User 2 enqueues via `/chat`, the admin bans user 2 (`/ban` calls `endChat`
but never removes the waiting-queue entry, and `findPartner` never checks
the candidate's `isActive`), then user 1's `/chat` is matched with the
banned user 2 and a session is created with them. -/
theorem C2_banned_user_matched :
    mget (run [Event.chat 2 0, Event.ban 2, Event.chat 1 1]
      (initState (fun _ => baseUser))).activeChats 1 = some 2 ∧
    ((run [Event.chat 2 0, Event.ban 2, Event.chat 1 1]
      (initState (fun _ => baseUser))).users 2).isActive = false := by
  constructor <;> rfl

/-- C3 counterexample: on a state where 1 is already paired with 2,
`startChat 1 3` neither fails nor leaves the session table unchanged: it
silently overwrites 1's entry with 3 (leaving the stale directed entry 2→1
behind). -/
theorem C3_counterexample :
    mget (startChat ⟨fun _ => baseUser, [(1, 2), (2, 1)], [], []⟩
        1 3).activeChats 1 = some 3 ∧
    mget (startChat ⟨fun _ => baseUser, [(1, 2), (2, 1)], [], []⟩
        1 3).activeChats 2 = some 1 ∧
    (startChat ⟨fun _ => baseUser, [(1, 2), (2, 1)], [], []⟩
        1 3).activeChats ≠ [(1, 2), (2, 1)] := by
  refine ⟨rfl, rfl, ?_⟩
  decide

/-- C3 amended: `startChat` has no `AlreadyInSession` check and never fails:
for any state it unconditionally creates both directed mappings a→b and
b→a — overwriting any existing entry of a or b — removes both ids from the
waiting queue, and leaves every other session entry unchanged.  (Only when
neither side had an entry is the result the claimed fresh symmetric pair;
the call sites guard with `activeChats.has` checks instead.) -/
theorem C3_startChat_amended (s : BotState) (a b : Nat) (hab : a ≠ b) :
    mget (startChat s a b).activeChats a = some b ∧
    mget (startChat s a b).activeChats b = some a ∧
    (∀ c, c ≠ a → c ≠ b →
       mget (startChat s a b).activeChats c = mget s.activeChats c) ∧
    (startChat s a b).waitingQueue = mdel (mdel s.waitingQueue a) b := by
  refine ⟨?_, ?_, ?_, rfl⟩
  · show mget (mset (mset s.activeChats a b) b a) a = some b
    rw [mget_mset_ne _ _ _ _ hab, mget_mset_self]
  · show mget (mset (mset s.activeChats a b) b a) b = some a
    rw [mget_mset_self]
  · intro c hca hcb
    show mget (mset (mset s.activeChats a b) b a) c = mget s.activeChats c
    rw [mget_mset_ne _ _ _ _ hcb, mget_mset_ne _ _ _ _ hca]

/-- C3 witness: the amended statement at a state where 1 is already paired. -/
theorem C3_startChat_amended_witness :
    mget (startChat ⟨fun _ => baseUser, [(1, 2), (2, 1)], [], []⟩
        1 3).activeChats 1 = some 3 ∧
    mget (startChat ⟨fun _ => baseUser, [(1, 2), (2, 1)], [], []⟩
        1 3).activeChats 3 = some 1 ∧
    (∀ c, c ≠ 1 → c ≠ 3 →
       mget (startChat ⟨fun _ => baseUser, [(1, 2), (2, 1)], [], []⟩
          1 3).activeChats c
         = mget (⟨fun _ => baseUser, [(1, 2), (2, 1)], [], []⟩
            : BotState).activeChats c) ∧
    (startChat ⟨fun _ => baseUser, [(1, 2), (2, 1)], [], []⟩
        1 3).waitingQueue
      = mdel (mdel (⟨fun _ => baseUser, [(1, 2), (2, 1)], [], []⟩
          : BotState).waitingQueue 1) 3 :=
  C3_startChat_amended ⟨fun _ => baseUser, [(1, 2), (2, 1)], [], []⟩ 1 3
    (by decide)

/-- C4: with waiting entries enqueued in source order [regular a, premium b,
regular c] (premium enqueue rebuilds the map with the entry at the front,
regular enqueue appends), a later match request by a non-premium requester
with no gender preference selects the premium user b ahead of a and c. -/
theorem C4_premium_priority (u0 : Nat → UserRec) (ac : List (Nat × Nat))
    (rep : List ReportRec) (a b c r : Nat) (pa pb pc : Option Gender)
    (ta tb tc now : Nat) (hab : a ≠ b) (hac : a ≠ c) (hbc : b ≠ c)
    (hbr : b ≠ r) (_hprem : (u0 r).isPremium = false) :
    (findPartner
      ⟨u0, ac,
        enqueueUser (enqueueUser (enqueueUser [] a pa ta false) b pb tb true)
          c pc tc false, rep⟩
      r none now).1 = some b := by
  have hQ : enqueueUser (enqueueUser (enqueueUser [] a pa ta false) b pb tb
        true) c pc tc false
      = [(b, ⟨pb, tb, true⟩), (a, ⟨pa, ta, false⟩), (c, ⟨pc, tc, false⟩)] := by
    have h1 : enqueueUser [] a pa ta false = [(a, ⟨pa, ta, false⟩)] := rfl
    rw [h1]
    rw [enqueueUser_prem_eq _ _ _ _ (by simp) (by simp [Ne.symm hab])]
    rw [enqueueUser_reg_eq _ _ _ _ (by simp [Ne.symm hac, Ne.symm hbc])]
    rfl
  unfold findPartner
  dsimp only
  rw [hQ]
  rw [show mdel [(b, (⟨pb, tb, true⟩ : QEntry)), (a, ⟨pa, ta, false⟩),
        (c, ⟨pc, tc, false⟩)] r
      = (b, (⟨pb, tb, true⟩ : QEntry)) ::
          mdel [(a, ⟨pa, ta, false⟩), (c, ⟨pc, tc, false⟩)] r from by
    simp [mdel, hbr]]
  rw [show scanAny ((b, (⟨pb, tb, true⟩ : QEntry)) ::
        mdel [(a, ⟨pa, ta, false⟩), (c, ⟨pc, tc, false⟩)] r) r = some b from by
    simp [scanAny, hbr]]

/-- C4 witness: the priority statement at a concrete four-user pool. -/
theorem C4_premium_priority_witness :
    (findPartner
      ⟨fun _ => baseUser, [],
        enqueueUser (enqueueUser (enqueueUser [] 10 none 0 false) 11 none 1
          true) 12 none 2 false, []⟩
      13 none 5).1 = some 11 :=
  C4_premium_priority (fun _ => baseUser) [] [] 10 11 12 13 none none none
    0 1 2 5 (by decide) (by decide) (by decide) (by decide) (by decide)

/-- Matching with no effective gender preference returns the queue's first
entry whenever that entry's id differs from the requester. -/
theorem findPartner_none_head (u0 : Nat → UserRec) (ac : List (Nat × Nat))
    (rep : List ReportRec) (b : Nat) (e : QEntry) (q : List (Nat × QEntry))
    (r now : Nat) (hbr : b ≠ r) :
    (findPartner ⟨u0, ac, (b, e) :: q, rep⟩ r none now).1 = some b := by
  unfold findPartner
  dsimp only
  rw [show mdel ((b, e) :: q) r = (b, e) :: mdel q r from by simp [mdel, hbr]]
  rw [show scanAny ((b, e) :: mdel q r) r = some b from by simp [scanAny, hbr]]

/-- Users 1 and 2 premium (male, valid subscriptions), user 3 regular. -/
def u0C5 : Nat → UserRec :=
  fun i => if i ≤ 2 then premUserOf .male else baseUser

/-- C5 counterexample: premium users 1 then 2 enqueue (in that order, both
still waiting, queue iteration order [2, 1]); non-premium user 3's later
request — which can accept either — selects 2, the *later*-enqueued premium
user, not 1. -/
theorem C5_counterexample :
    keys (run [Event.findPref 1 (some .female) 0,
      Event.findPref 2 (some .female) 1]
      (initState u0C5)).waitingQueue = [2, 1] ∧
    mget (run [Event.findPref 1 (some .female) 0,
      Event.findPref 2 (some .female) 1, Event.chat 3 2]
      (initState u0C5)).activeChats 3 = some 2 ∧
    mget (run [Event.findPref 1 (some .female) 0,
      Event.findPref 2 (some .female) 1, Event.chat 3 2]
      (initState u0C5)).activeChats 3 ≠ some 1 := by
  refine ⟨rfl, rfl, ?_⟩
  decide

/-- C5 amended: within the regular tier the pool is scanned in insertion
order (of two regular waiting users the earlier-enqueued is selected), but a
premium enqueue rebuilds the queue with the new entry at the very front, so
of two premium waiting users the *later*-enqueued one is selected first
(LIFO within the premium tier). -/
theorem C5_scan_order_amended (u0 : Nat → UserRec) (ac : List (Nat × Nat))
    (rep : List ReportRec) :
    (∀ (q : List (Nat × QEntry)) (p1 p2 r : Nat) (g1 g2 : Option Gender)
       (t1 t2 now : Nat),
       (keys q).Nodup → p1 ∉ keys q → p2 ∉ keys q → p2 ≠ p1 → p2 ≠ r →
       (findPartner
         ⟨u0, ac, enqueueUser (enqueueUser q p1 g1 t1 true) p2 g2 t2 true,
          rep⟩ r none now).1 = some p2) ∧
    (∀ (r1 r2 r : Nat) (g1 g2 : Option Gender) (t1 t2 now : Nat),
       r1 ≠ r2 → r1 ≠ r →
       (findPartner
         ⟨u0, ac, enqueueUser (enqueueUser [] r1 g1 t1 false) r2 g2 t2 false,
          rep⟩ r none now).1 = some r1) := by
  constructor
  · intro q p1 p2 r g1 g2 t1 t2 now hq hp1 hp2 hp21 hp2r
    rw [enqueueUser_prem_eq q p1 g1 t1 hq hp1]
    rw [enqueueUser_prem_eq _ p2 g2 t2 (by simp [hq, hp1])
      (by simp [hp2, hp21])]
    exact findPartner_none_head u0 ac rep p2 _ _ r now hp2r
  · intro r1 r2 r g1 g2 t1 t2 now h12 h1r
    rw [show enqueueUser [] r1 g1 t1 false = [(r1, ⟨g1, t1, false⟩)] from rfl]
    rw [enqueueUser_reg_eq _ r2 g2 t2 (by simp [Ne.symm h12])]
    exact findPartner_none_head u0 ac rep r1 _ _ r now h1r

/-- C5 witness: both amended conjuncts at concrete pools. -/
theorem C5_scan_order_amended_witness :
    (findPartner
      ⟨fun _ => baseUser, [],
        enqueueUser (enqueueUser [] 1 (some .female) 0 true) 2 (some .female)
          1 true, []⟩ 3 none 2).1 = some 2 ∧
    (findPartner
      ⟨fun _ => baseUser, [],
        enqueueUser (enqueueUser [] 4 none 0 false) 5 none 1 false, []⟩
      6 none 2).1 = some 4 :=
  ⟨(C5_scan_order_amended (fun _ => baseUser) [] []).1 [] 1 2 3 (some .female)
      (some .female) 0 1 2 (by decide) (by decide) (by decide) (by decide)
      (by decide),
   (C5_scan_order_amended (fun _ => baseUser) [] []).2 4 5 6 none none 0 1 2
      (by decide) (by decide)⟩

/-- For an effectively-premium requester with a concrete preferred gender the
match result is exactly the two-tier scan: first `scanPremGender`, then
`scanGender` as fallback. -/
theorem findPartner_premium_tiered {s : BotState} {uid : Nat} {g : Gender}
    {now e : Nat} (hprem : (s.users uid).isPremium = true)
    (hexp : (s.users uid).premiumExpire = some e) (hlive : now ≤ e) :
    (findPartner s uid (some g) now).1
      = (match scanPremGender s.users (mdel s.waitingQueue uid) uid g with
         | some p => some p
         | none => scanGender s.users (mdel s.waitingQueue uid) uid g) := by
  have hcp : checkPremiumStatus (s.users uid) now = (s.users uid, true) := by
    unfold checkPremiumStatus
    rw [hprem, hexp]
    simp [show ¬ now > e from by omega]
  unfold findPartner
  dsimp only
  rw [hcp]
  dsimp only
  rw [setUser_self]
  cases hpg : scanPremGender s.users (mdel s.waitingQueue uid) uid g with
  | some p => simp [hpg]
  | none =>
    cases hsg : scanGender s.users (mdel s.waitingQueue uid) uid g <;>
      simp [hpg, hsg]

/-- Users 1 and 2 premium female, all others premium male. -/
def u0C6 : Nat → UserRec :=
  fun i => if i ≤ 2 then premUserOf .female else premUserOf .male

/-- C6 counterexample: premium females 1 then 2 enqueue (both still waiting,
1 the earliest); premium male 3 requests a female partner and is matched
with 2 — the front-inserted, most recently enqueued premium female — not
with the earliest-waiting premium female 1. -/
theorem C6_counterexample :
    keys (run [Event.findPref 1 (some .male) 0, Event.findPref 2 (some .male) 1]
      (initState u0C6)).waitingQueue = [2, 1] ∧
    mget (run [Event.findPref 1 (some .male) 0,
      Event.findPref 2 (some .male) 1, Event.findPref 3 (some .female) 2]
      (initState u0C6)).activeChats 3 = some 2 ∧
    mget (run [Event.findPref 1 (some .male) 0,
      Event.findPref 2 (some .male) 1, Event.findPref 3 (some .female) 2]
      (initState u0C6)).activeChats 3 ≠ some 1 := by
  refine ⟨rfl, rfl, ?_⟩
  decide

/-- C6 amended: for an effectively-premium requester with concrete preferred
gender the matching is two-tier in queue *scan* order (premium entries sit
at the front of the scan, most recently enqueued first — not oldest-first):
first entry whose user has the preferred gender and a set premium flag; if
none, first entry with the preferred gender regardless of premium status.
In particular a pool holding only a non-premium user of the preferred
gender yields that user as the match rather than enqueueing the requester. -/
theorem C6_two_tier_amended (s : BotState) (uid : Nat) (g : Gender)
    (now e : Nat) (hprem : (s.users uid).isPremium = true)
    (hexp : (s.users uid).premiumExpire = some e) (hlive : now ≤ e) :
    (∀ p, scanPremGender s.users (mdel s.waitingQueue uid) uid g = some p →
       (findPartner s uid (some g) now).1 = some p) ∧
    (scanPremGender s.users (mdel s.waitingQueue uid) uid g = none →
       (findPartner s uid (some g) now).1
         = scanGender s.users (mdel s.waitingQueue uid) uid g) ∧
    (∀ f ef, s.waitingQueue = [(f, ef)] → f ≠ uid →
       (s.users f).gender = g → (s.users f).isPremium = false →
       (findPartner s uid (some g) now).1 = some f) := by
  refine ⟨?_, ?_, ?_⟩
  · intro p hp
    rw [findPartner_premium_tiered hprem hexp hlive, hp]
  · intro h0
    rw [findPartner_premium_tiered hprem hexp hlive, h0]
  · intro f ef hq hfu hg hnp
    rw [findPartner_premium_tiered hprem hexp hlive, hq]
    rw [show mdel [(f, ef)] uid = [(f, ef)] from by simp [mdel, hfu]]
    rw [show scanPremGender s.users [(f, ef)] uid g = none from by
      simp [scanPremGender, hnp]]
    rw [show scanGender s.users [(f, ef)] uid g = some f from by
      simp [scanGender, hfu, hg]]

/-- C6 witness: the amended statement at a state whose pool holds only the
non-premium female 1, with premium male 2 requesting a female partner. -/
theorem C6_two_tier_amended_witness :
    (∀ p, scanPremGender
        (fun i => if i = 1 then { baseUser with gender := .female }
                  else premUserOf .male)
        (mdel [(1, ⟨none, 0, false⟩)] 2) 2 .female = some p →
       (findPartner
         ⟨fun i => if i = 1 then { baseUser with gender := .female }
                   else premUserOf .male,
          [], [(1, ⟨none, 0, false⟩)], []⟩ 2 (some .female) 7).1 = some p) ∧
    (scanPremGender
        (fun i => if i = 1 then { baseUser with gender := .female }
                  else premUserOf .male)
        (mdel [(1, ⟨none, 0, false⟩)] 2) 2 .female = none →
       (findPartner
         ⟨fun i => if i = 1 then { baseUser with gender := .female }
                   else premUserOf .male,
          [], [(1, ⟨none, 0, false⟩)], []⟩ 2 (some .female) 7).1
         = scanGender
            (fun i => if i = 1 then { baseUser with gender := .female }
                      else premUserOf .male)
            (mdel [(1, ⟨none, 0, false⟩)] 2) 2 .female) ∧
    (∀ f ef, [(1, (⟨none, 0, false⟩ : QEntry))] = [(f, ef)] → f ≠ 2 →
       ((fun i => if i = 1 then { baseUser with gender := .female }
                  else premUserOf .male) f).gender = .female →
       ((fun i => if i = 1 then { baseUser with gender := .female }
                  else premUserOf .male) f).isPremium = false →
       (findPartner
         ⟨fun i => if i = 1 then { baseUser with gender := .female }
                   else premUserOf .male,
          [], [(1, ⟨none, 0, false⟩)], []⟩ 2 (some .female) 7).1 = some f) :=
  C6_two_tier_amended
    ⟨fun i => if i = 1 then { baseUser with gender := .female }
              else premUserOf .male,
     [], [(1, ⟨none, 0, false⟩)], []⟩
    2 .female 7 1000000000 (by decide) (by decide) (by decide)

theorem endChat_users (s : BotState) (uid : Nat) :
    (endChat s uid).2.users = s.users := by
  unfold endChat
  cases hg : mget s.activeChats uid
  · rfl
  · rfl

theorem endChat_removes (s : BotState) (uid p : Nat)
    (h : mget s.activeChats uid = some p) :
    mget (endChat s uid).2.activeChats uid = none := by
  unfold endChat
  rw [h]
  dsimp only
  by_cases hup : uid = p
  · subst hup
    rw [mget_mdel_self]
  · rw [mget_mdel_ne _ _ _ hup, mget_mdel_self]

/-- Marking a user banned (`user.isActive = false`). -/
def banUser (u : UserRec) : UserRec :=
  { u with isActive := false }

/-- Storing an updated flood window on a user record. -/
def pushFlood (u : UserRec) (fm : List Nat) : UserRec :=
  { u with floodMessages := fm }

theorem checkAndAutoBan_flood {s : BotState} {uid : Nat}
    (hprem : (s.users uid).isPremium = false) :
    checkAndAutoBan s uid .flood
      = (true, (endChat (BotState.mk
          (setUser s.users uid (banUser (s.users uid)))
          s.activeChats s.waitingQueue s.reports) uid).2) := by
  unfold checkAndAutoBan
  dsimp only
  rw [if_neg (by simp [hprem])]
  rw [if_pos rfl]
  rfl

/-- Shared flood lemma: a sender whose raw `isPremium` flag is false, in an
active session with both sides active and 19 in-window flood timestamps,
triggers the flood auto-ban on the next relayed message. -/
theorem relay_flood_autoban_core (s : BotState) (uid p now : Nat) (body : MsgBody)
    (hchat : mget s.activeChats uid = some p)
    (hact : (s.users uid).isActive = true)
    (hpact : (s.users p).isActive = true)
    (hprem : (s.users uid).isPremium = false)
    (hlen : (s.users uid).floodMessages.length = 19)
    (hwin : ∀ t ∈ (s.users uid).floodMessages, now - t < 10000) :
    (relayMessage s uid now body).1 = .autoBanned ∧
    ((relayMessage s uid now body).2.users uid).isActive = false ∧
    mget (relayMessage s uid now body).2.activeChats uid = none := by
  have hfm : ((s.users uid).floodMessages ++ [now]).filter
      (fun t => now - t < 10000) = (s.users uid).floodMessages ++ [now] := by
    rw [List.filter_eq_self]
    intro a ha
    rcases List.mem_append.mp ha with h | h
    · simpa using hwin a h
    · rw [List.mem_singleton] at h
      subst h
      simp
  have hfs : floodStep s uid now
      = checkAndAutoBan (BotState.mk
          (setUser s.users uid (pushFlood (s.users uid)
            ((s.users uid).floodMessages ++ [now])))
          s.activeChats s.waitingQueue s.reports) uid .flood := by
    unfold floodStep
    dsimp only
    rw [hfm]
    rw [if_pos (by simp [hlen])]
    rfl
  have hpremFM : ((BotState.mk
      (setUser s.users uid (pushFlood (s.users uid)
        ((s.users uid).floodMessages ++ [now])))
      s.activeChats s.waitingQueue s.reports).users uid).isPremium
        = false := by
    show (setUser s.users uid (pushFlood (s.users uid)
      ((s.users uid).floodMessages ++ [now])) uid).isPremium = false
    rw [setUser_at]
    exact hprem
  have hcab := checkAndAutoBan_flood hpremFM
  have hab : relayAbuse s uid now body = floodStep s uid now := by
    unfold relayAbuse
    dsimp only
    rw [if_pos (by rw [hfs, hcab])]
  unfold relayMessage
  rw [hchat]
  dsimp only
  rw [if_neg (by simp [hact, hpact]), if_neg (by simp [hprem])]
  rw [hab, hfs, hcab]
  dsimp only
  rw [if_pos rfl]
  refine ⟨rfl, ?_, ?_⟩
  · rw [endChat_users]
    show (setUser (BotState.mk
      (setUser s.users uid (pushFlood (s.users uid)
        ((s.users uid).floodMessages ++ [now])))
      s.activeChats s.waitingQueue s.reports).users uid
        (banUser ((BotState.mk
          (setUser s.users uid (pushFlood (s.users uid)
            ((s.users uid).floodMessages ++ [now])))
          s.activeChats s.waitingQueue s.reports).users uid)) uid).isActive
        = false
    rw [setUser_at]
    rfl
  · exact endChat_removes _ uid p hchat

/-- C7: a non-premium user in an active session with both sides active,
whose stored flood window already holds 19 timestamps all within 10 s of
`now`, sends a 20th message: the relay answers `autoBanned` (the message is
not forwarded), the user's `isActive` is cleared (permanent ban), and the
session table no longer contains the user. -/
theorem C7_flood_autoban (s : BotState) (uid p now : Nat) (body : MsgBody)
    (hchat : mget s.activeChats uid = some p)
    (hact : (s.users uid).isActive = true)
    (hpact : (s.users p).isActive = true)
    (hprem : (s.users uid).isPremium = false)
    (hlen : (s.users uid).floodMessages.length = 19)
    (hwin : ∀ t ∈ (s.users uid).floodMessages, now - t < 10000) :
    (relayMessage s uid now body).1 = .autoBanned ∧
    ((relayMessage s uid now body).2.users uid).isActive = false ∧
    mget (relayMessage s uid now body).2.activeChats uid = none :=
  relay_flood_autoban_core s uid p now body hchat hact hpact hprem hlen hwin

/-- C7 witness: a concrete two-user session in which user 1 has 19 recent
timestamps and sends the 20th message. -/
theorem C7_flood_autoban_witness :
    (relayMessage
      ⟨fun i => if i = 1
          then { baseUser with floodMessages := List.replicate 19 0 }
          else baseUser,
        [(1, 2), (2, 1)], [], []⟩ 1 5000 (.text ['h', 'i'])).1
      = .autoBanned ∧
    ((relayMessage
      ⟨fun i => if i = 1
          then { baseUser with floodMessages := List.replicate 19 0 }
          else baseUser,
        [(1, 2), (2, 1)], [], []⟩ 1 5000 (.text ['h', 'i'])).2.users
          1).isActive = false ∧
    mget (relayMessage
      ⟨fun i => if i = 1
          then { baseUser with floodMessages := List.replicate 19 0 }
          else baseUser,
        [(1, 2), (2, 1)], [], []⟩ 1 5000 (.text ['h', 'i'])).2.activeChats 1
      = none :=
  C7_flood_autoban
    ⟨fun i => if i = 1
        then { baseUser with floodMessages := List.replicate 19 0 }
        else baseUser,
      [(1, 2), (2, 1)], [], []⟩ 1 2 5000 (.text ['h', 'i'])
    (by decide) (by decide) (by decide) (by decide) (by decide)
    (by decide)

/-- A user whose premium flag is still set although the premium expired at
t = 5, holding a full 19-entry flood window. -/
def expiredPremFlooder : UserRec :=
  { baseUser with
    isPremium := true
    premiumExpire := some 5
    floodMessages := List.replicate 19 999000 }

/-- The same user with the premium flag cleared. -/
def clearedFlagFlooder : UserRec :=
  { baseUser with
    premiumExpire := some 5
    floodMessages := List.replicate 19 999000 }

/-- C8 counterexample: user 1's premium flag is still set while the premium
itself has expired (`premiumExpire = 5`, `now = 1000000`), so premium is not
currently active; the user has 19 in-window flood timestamps and sends a
20th message — yet no penalty is applied: the message is relayed verbatim,
the user stays active and not even the flood window is updated.  The relay
gates the whole anti-abuse block on the raw `isPremium` flag only. -/
theorem C8_counterexample :
    ((⟨fun i => if i = 1 then expiredPremFlooder else baseUser,
      [(1, 2), (2, 1)], [], []⟩ : BotState).users 1).isPremium = true ∧
    ((⟨fun i => if i = 1 then expiredPremFlooder else baseUser,
      [(1, 2), (2, 1)], [], []⟩ : BotState).users 1).premiumExpire
      = some 5 ∧
    (relayMessage
      ⟨fun i => if i = 1 then expiredPremFlooder else baseUser,
        [(1, 2), (2, 1)], [], []⟩ 1 1000000 (.text ['h', 'i'])).1
      = .relayed ['h', 'i'] ∧
    ((relayMessage
      ⟨fun i => if i = 1 then expiredPremFlooder else baseUser,
        [(1, 2), (2, 1)], [], []⟩ 1 1000000 (.text ['h', 'i'])).2.users
          1).isActive = true ∧
    ((relayMessage
      ⟨fun i => if i = 1 then expiredPremFlooder else baseUser,
        [(1, 2), (2, 1)], [], []⟩ 1 1000000 (.text ['h', 'i'])).2.users
          1).floodMessages = List.replicate 19 999000 := by
  refine ⟨rfl, rfl, rfl, rfl, rfl⟩

/-- C8 amended: the automatic abuse penalties of the relay are gated on the
*raw* `isPremium` flag at relay time, not on `isPremium && now <
premiumExpire`: a sender whose flag is set is fully exempt (never
auto-banned, user table untouched) regardless of `premiumExpire`, while a
sender whose flag is clear is subject to the checks (e.g. the 20-in-10s
flood ban).  An expired-but-uncleared flag therefore keeps exempting the
user until some other code path (e.g. `/start`, `/chat`) lazily clears
it. -/
theorem C8_raw_flag_gating :
    (∀ (s : BotState) (uid now : Nat) (body : MsgBody),
       (s.users uid).isPremium = true →
       (relayMessage s uid now body).1 ≠ .autoBanned ∧
       (relayMessage s uid now body).2.users = s.users) ∧
    (∀ (s : BotState) (uid p now : Nat) (body : MsgBody),
       mget s.activeChats uid = some p →
       (s.users uid).isActive = true → (s.users p).isActive = true →
       (s.users uid).isPremium = false →
       (s.users uid).floodMessages.length = 19 →
       (∀ t ∈ (s.users uid).floodMessages, now - t < 10000) →
       (relayMessage s uid now body).1 = .autoBanned) := by
  constructor
  · intro s uid now body hp
    unfold relayMessage
    cases hg : mget s.activeChats uid with
    | none => exact ⟨by simp, rfl⟩
    | some pid =>
      dsimp only
      split
      · constructor
        · simp
        · rw [endChat_users]
      · constructor
        · unfold forwardMsg
          cases body with
          | text t =>
            dsimp only
            split <;> simp
          | media =>
            dsimp only
            split <;> simp
        · rw [forwardMsg_state]
  · intro s uid p now body hchat hact hpact hprem hlen hwin
    exact (relay_flood_autoban_core s uid p now body hchat hact hpact hprem
      hlen hwin).1

/-- C8 witness: both amended conjuncts — the concrete expired-flag user of
the counterexample state is exempt, and the same user with the flag cleared
is flood-banned. -/
theorem C8_raw_flag_gating_witness :
    ((relayMessage
      ⟨fun i => if i = 1 then expiredPremFlooder else baseUser,
        [(1, 2), (2, 1)], [], []⟩ 1 1000000 (.text ['h', 'i'])).1
        ≠ .autoBanned ∧
     (relayMessage
      ⟨fun i => if i = 1 then expiredPremFlooder else baseUser,
        [(1, 2), (2, 1)], [], []⟩ 1 1000000 (.text ['h', 'i'])).2.users
       = (⟨fun i => if i = 1 then expiredPremFlooder else baseUser,
        [(1, 2), (2, 1)], [], []⟩ : BotState).users) ∧
    (relayMessage
      ⟨fun i => if i = 1 then clearedFlagFlooder else baseUser,
        [(1, 2), (2, 1)], [], []⟩ 1 1000000 (.text ['h', 'i'])).1
      = .autoBanned :=
  ⟨C8_raw_flag_gating.1
      ⟨fun i => if i = 1 then expiredPremFlooder else baseUser,
        [(1, 2), (2, 1)], [], []⟩ 1 1000000 (.text ['h', 'i']) (by decide),
   C8_raw_flag_gating.2
      ⟨fun i => if i = 1 then clearedFlagFlooder else baseUser,
        [(1, 2), (2, 1)], [], []⟩ 1 2 1000000 (.text ['h', 'i']) (by decide)
      (by decide) (by decide) (by decide) (by decide) (by decide)⟩

theorem uniqueCount_le_one {l : List Nat} {rep : Nat}
    (h : ∀ x ∈ l, x = rep) : uniqueCount l ≤ 1 := by
  have key : ∀ (l' : List Nat), (∀ x ∈ l', x = rep) →
      ∀ acc : List Nat, (acc = [] ∨ acc = [rep]) →
      (l'.foldl (fun acc x => if x ∈ acc then acc else acc ++ [x]) acc = []
       ∨ l'.foldl (fun acc x => if x ∈ acc then acc else acc ++ [x]) acc
           = [rep]) := by
    intro l'
    induction l' with
    | nil =>
      intro _ acc hacc
      simpa using hacc
    | cons x t ih =>
      intro hx acc hacc
      have hxr : x = rep := hx x (List.mem_cons_self _ _)
      have ht : ∀ y ∈ t, y = rep := fun y hy => hx y (List.mem_cons_of_mem _ hy)
      rw [List.foldl_cons]
      apply ih ht
      rcases hacc with rfl | rfl
      · right
        show (if x ∈ ([] : List Nat) then ([] : List Nat)
            else [] ++ [x]) = [rep]
        simp [hxr]
      · right
        show (if x ∈ [rep] then [rep] else [rep] ++ [x]) = [rep]
        simp [hxr]
  unfold uniqueCount
  rcases key l h [] (Or.inl rfl) with h1 | h1 <;> rw [h1] <;> simp

theorem checkAndAutoBan_reports_noban {s : BotState} {tgt : Nat}
    (h : (s.users tgt).reportCount < 50) :
    checkAndAutoBan s tgt .reports = (false, s) := by
  unfold checkAndAutoBan
  dsimp only
  split
  · rfl
  · rw [if_neg (by simp only [ge_iff_le, decide_eq_true_eq]; omega)]

theorem reportCb_single_step {s : BotState} {rep tgt t : Nat}
    (hrep : ∀ r ∈ s.reports, r.reporter = rep)
    (hc : (s.users tgt).reportCount ≤ 1)
    (ha : (s.users tgt).isActive = true) :
    (∀ r ∈ (reportCb s rep tgt t).reports, r.reporter = rep) ∧
    ((reportCb s rep tgt t).users tgt).reportCount ≤ 1 ∧
    ((reportCb s rep tgt t).users tgt).isActive = true := by
  unfold reportCb
  split
  · exact ⟨hrep, hc, ha⟩
  · dsimp only
    split
    · exact ⟨hrep, hc, ha⟩
    · have huniq : uniqueCount
          (((s.reports ++ [(⟨tgt, rep, t⟩ : ReportRec)]).filter
            fun r : ReportRec => r.reported = tgt).map
              fun r : ReportRec => r.reporter) ≤ 1 := by
        apply uniqueCount_le_one
        intro x hx
        simp only [List.mem_map] at hx
        obtain ⟨r, hr1, hr2⟩ := hx
        have hr3 := (List.mem_filter.mp hr1).1
        rcases List.mem_append.mp hr3 with hh | hh
        · rw [← hr2]
          exact hrep r hh
        · rw [List.mem_singleton] at hh
          subst hh
          rw [← hr2]
      rw [checkAndAutoBan_reports_noban (by
        show (setUser s.users tgt _ tgt).reportCount < 50
        rw [setUser_at]
        show uniqueCount _ < 50
        omega)]
      refine ⟨?_, ?_, ?_⟩
      · intro r hr
        rcases List.mem_append.mp hr with hh | hh
        · exact hrep r hh
        · rw [List.mem_singleton] at hh
          subst hh
          rfl
      · show (setUser s.users tgt _ tgt).reportCount ≤ 1
        rw [setUser_at]
        exact huniq
      · show (setUser s.users tgt _ tgt).isActive = true
        rw [setUser_at]
        exact ha

theorem reportCb_single_fold (rep tgt : Nat) (ts : List Nat) :
    ∀ s : BotState, (∀ r ∈ s.reports, r.reporter = rep) →
      (s.users tgt).reportCount ≤ 1 → (s.users tgt).isActive = true →
      (((ts.foldl (fun st t => reportCb st rep tgt t) s).users
          tgt).reportCount ≤ 1 ∧
       ((ts.foldl (fun st t => reportCb st rep tgt t) s).users
          tgt).isActive = true) := by
  induction ts with
  | nil =>
    intro s _ hc ha
    exact ⟨hc, ha⟩
  | cons t ts ih =>
    intro s hrep hc ha
    obtain ⟨h1, h2, h3⟩ := reportCb_single_step hrep hc ha
    rw [List.foldl_cons]
    exact ih _ h1 h2 h3

set_option maxRecDepth 100000 in
/-- C9: the report counter counts distinct reporter ids.  50 distinct
reporters (ids 1..50) each reporting user 100 once drive `reportCount` to 50
and fire the auto-ban (`isActive = false`); 49 distinct reporters do not;
and any number of reports all sent by one single reporter never drive the
counted total above 1 and never trigger the ban. -/
theorem C9_unique_reporter_threshold :
    (((List.range 50).foldl (fun st i => reportCb st (i + 1) 100 0)
        (initState (fun _ => baseUser))).users 100).reportCount = 50 ∧
    (((List.range 50).foldl (fun st i => reportCb st (i + 1) 100 0)
        (initState (fun _ => baseUser))).users 100).isActive = false ∧
    (((List.range 49).foldl (fun st i => reportCb st (i + 1) 100 0)
        (initState (fun _ => baseUser))).users 100).isActive = true ∧
    (∀ (rep tgt : Nat) (u0 : Nat → UserRec) (ts : List Nat),
       (u0 tgt).reportCount ≤ 1 → (u0 tgt).isActive = true →
       ((ts.foldl (fun st t => reportCb st rep tgt t)
           (initState u0)).users tgt).reportCount ≤ 1 ∧
       ((ts.foldl (fun st t => reportCb st rep tgt t)
           (initState u0)).users tgt).isActive = true) := by
  refine ⟨by rfl, by rfl, by rfl, ?_⟩
  intro rep tgt u0 ts hc ha
  exact reportCb_single_fold rep tgt ts (initState u0)
    (by intro r hr; simp [initState] at hr) hc ha

/-- C9 witness: the single-reporter conjunct applied to reporter 7 filing
three reports against user 100. -/
theorem C9_unique_reporter_threshold_witness :
    ((([0, 1, 2] : List Nat).foldl (fun st t => reportCb st 7 100 t)
        (initState (fun _ => baseUser))).users 100).reportCount ≤ 1 ∧
    ((([0, 1, 2] : List Nat).foldl (fun st t => reportCb st 7 100 t)
        (initState (fun _ => baseUser))).users 100).isActive = true :=
  C9_unique_reporter_threshold.2.2.2 7 100 (fun _ => baseUser) [0, 1, 2]
    (by decide) (by decide)

/-- C10: masking is length-preserving: for every input text `maskBadWords`
returns a text of exactly the same length — each occurrence of a filtered
word is replaced by a run of asterisks of equal length, so relaying a
filtered message never changes the message's length. -/
theorem C10_mask_preserves_length (t : List Char) :
    (maskBadWords t).length = t.length :=
  maskBadWords_length t

/-- C10 witness: the mask applied to a concrete mixed-case text. -/
theorem C10_mask_preserves_length_witness :
    (maskBadWords ['S', 'p', 'a', 'm', '!', 's', 'E', 'x']).length
      = (['S', 'p', 'a', 'm', '!', 's', 'E', 'x'] : List Char).length :=
  C10_mask_preserves_length ['S', 'p', 'a', 'm', '!', 's', 'E', 'x']
